import Mathlib

/-!
Verification of the analytics and optimization engine of `backend/app.py`
(portfolio_app).  Prices, returns and weights are modelled over `ℚ`;
dictionaries are association lists; pandas frames are lists of rows.
The square root and the external constrained solver (`scipy.optimize.minimize`)
are abstracted as function parameters, constrained only by the solver
contract stated in the design document.
-/

namespace PortfolioApp

/-- One parsed holding row: ticker, entry date, entry price, quantity
(`parse_current_holdings_csv` output shape). -/
structure Holding where
  ticker : String
  entry_date : String
  entry_price : ℚ
  quantity : ℚ
deriving DecidableEq, Repr

/-- One row of the per-holding breakdown built by
`calculate_holdings_performance`. -/
structure StockPerf where
  ticker : String
  entry_price : ℚ
  current_price : ℚ
  quantity : ℚ
  invested_amount : ℚ
  current_value : ℚ
  gain_loss : ℚ
  gain_loss_pct : ℚ
  sector : String
  asset_class : String
deriving DecidableEq, Repr

/-- Python `dict.get(k, d)` over an association list. -/
def dictGet {α : Type} (m : List (String × α)) (k : String) (d : α) : α :=
  (m.lookup k).getD d

/-- The inclusion guard of `calculate_holdings_performance`:
`current_price > 0 and entry_price > 0`. -/
def includeHolding (prices : List (String × ℚ)) (h : Holding) : Bool :=
  decide (0 < dictGet prices h.ticker 0 ∧ 0 < h.entry_price)

/-- The per-holding record appended to `portfolio_data` for an included
holding. -/
def mkStockPerf (prices : List (String × ℚ)) (smap cmap : List (String × String))
    (h : Holding) : StockPerf :=
  let cp := dictGet prices h.ticker 0
  let invested := h.entry_price * h.quantity
  let cv := cp * h.quantity
  let gl := cv - invested
  { ticker := h.ticker
    entry_price := h.entry_price
    current_price := cp
    quantity := h.quantity
    invested_amount := invested
    current_value := cv
    gain_loss := gl
    gain_loss_pct := if 0 < invested then gl / invested * 100 else 0
    sector := dictGet smap h.ticker "Other"
    asset_class := dictGet cmap h.ticker "Other" }

/-- The `portfolio_data` list: one record per holding passing the guard. -/
def portfolioData (holdings : List Holding) (prices : List (String × ℚ))
    (smap cmap : List (String × String)) : List StockPerf :=
  holdings.filterMap fun h =>
    if includeHolding prices h then some (mkStockPerf prices smap cmap h) else none

/-- `defaultdict(float)` accumulation: `m[k] += v`. -/
def addTo : List (String × ℚ) → String → ℚ → List (String × ℚ)
  | [], k, v => [(k, v)]
  | (k', v') :: rest, k, v =>
      if k' = k then (k', v' + v) :: rest else (k', v') :: addTo rest k v

/-- The exposure loop: for each stock, when `total > 0`, add
`current_value / total` under the stock's key.  The `total > 0` test does not
depend on the stock, so the loop is the guarded fold below. -/
def exposureMap (key : StockPerf → String) (total : ℚ) (data : List StockPerf) :
    List (String × ℚ) :=
  if 0 < total then
    data.foldl (fun m s => addTo m (key s) (s.current_value / total)) []
  else []

/-- The record returned by `calculate_holdings_performance`. -/
structure HoldingsResult where
  portfolio_data : List StockPerf
  total_invested : ℚ
  total_current_value : ℚ
  total_gain_loss : ℚ
  total_return_pct : ℚ
  top_gainers : List (String × ℚ)
  top_losers : List (String × ℚ)
  sector_exposure : List (String × ℚ)
  asset_allocation : List (String × ℚ)
deriving DecidableEq, Repr

/-- `portfolio_data.sort(key=gain_loss_pct, reverse=True)`: stable descending
comparison. -/
def descByPct (a b : StockPerf) : Bool := decide (b.gain_loss_pct ≤ a.gain_loss_pct)

/-- Shallow embedding of `calculate_holdings_performance`. -/
def calculate_holdings_performance (holdings : List Holding)
    (current_prices : List (String × ℚ)) (sector_map class_map : List (String × String)) :
    HoldingsResult :=
  let data := portfolioData holdings current_prices sector_map class_map
  let total_invested := (data.map (·.invested_amount)).sum
  let total_current_value := (data.map (·.current_value)).sum
  let total_gain_loss := total_current_value - total_invested
  let total_return_pct :=
    if 0 < total_invested then total_gain_loss / total_invested * 100 else 0
  let sorted := data.mergeSort descByPct
  { portfolio_data := sorted
    total_invested := total_invested
    total_current_value := total_current_value
    total_gain_loss := total_gain_loss
    total_return_pct := total_return_pct
    top_gainers :=
      ((sorted.take 5).filter fun s => decide (0 < s.gain_loss_pct)).map
        fun s => (s.ticker, s.gain_loss_pct / 100)
    top_losers :=
      (((sorted.drop (sorted.length - 5)).filter fun s => decide (s.gain_loss_pct < 0)).map
        fun s => (s.ticker, s.gain_loss_pct / 100)).reverse
    sector_exposure := exposureMap (·.sector) total_current_value sorted
    asset_allocation := exposureMap (·.asset_class) total_current_value sorted }

/-- The holdings that pass the inclusion guard. -/
def includedHoldings (holdings : List Holding) (prices : List (String × ℚ)) :
    List Holding :=
  holdings.filter (includeHolding prices)

theorem portfolioData_eq_map (holdings : List Holding) (prices : List (String × ℚ))
    (smap cmap : List (String × String)) :
    portfolioData holdings prices smap cmap
      = (includedHoldings holdings prices).map (mkStockPerf prices smap cmap) := by
  induction holdings with
  | nil => rfl
  | cons h t ih =>
      simp only [portfolioData, includedHoldings, List.filterMap_cons, List.filter_cons] at *
      cases hc : includeHolding prices h <;> simp [hc, ih]

theorem portfolio_data_perm (holdings : List Holding) (prices : List (String × ℚ))
    (smap cmap : List (String × String)) :
    (calculate_holdings_performance holdings prices smap cmap).portfolio_data.Perm
      ((includedHoldings holdings prices).map (mkStockPerf prices smap cmap)) := by
  have h0 : (calculate_holdings_performance holdings prices smap cmap).portfolio_data
      = (portfolioData holdings prices smap cmap).mergeSort descByPct := rfl
  rw [h0, portfolioData_eq_map]
  exact List.mergeSort_perm _ _

theorem total_invested_eq (holdings : List Holding) (prices : List (String × ℚ))
    (smap cmap : List (String × String)) :
    (calculate_holdings_performance holdings prices smap cmap).total_invested
      = ((includedHoldings holdings prices).map fun h => h.entry_price * h.quantity).sum := by
  show ((portfolioData holdings prices smap cmap).map (·.invested_amount)).sum = _
  rw [portfolioData_eq_map, List.map_map]
  rfl

theorem total_current_value_eq (holdings : List Holding) (prices : List (String × ℚ))
    (smap cmap : List (String × String)) :
    (calculate_holdings_performance holdings prices smap cmap).total_current_value
      = ((includedHoldings holdings prices).map fun h => dictGet prices h.ticker 0 * h.quantity).sum := by
  show ((portfolioData holdings prices smap cmap).map (·.current_value)).sum = _
  rw [portfolioData_eq_map, List.map_map]
  rfl

theorem mem_portfolioData_of_mem_sorted (holdings : List Holding)
    (prices : List (String × ℚ)) (smap cmap : List (String × String)) (s : StockPerf)
    (hs : s ∈ (calculate_holdings_performance holdings prices smap cmap).portfolio_data) :
    ∃ h ∈ holdings, includeHolding prices h = true ∧ s = mkStockPerf prices smap cmap h := by
  have hperm := portfolio_data_perm holdings prices smap cmap
  have hs2 : s ∈ (includedHoldings holdings prices).map (mkStockPerf prices smap cmap) :=
    hperm.mem_iff.1 hs
  obtain ⟨h, hh, rfl⟩ := List.mem_map.1 hs2
  obtain ⟨hh1, hh2⟩ := List.mem_filter.1 hh
  exact ⟨h, hh1, hh2, rfl⟩

theorem gainers_from_included (holdings : List Holding) (prices : List (String × ℚ))
    (smap cmap : List (String × String)) :
    ∀ p ∈ (calculate_holdings_performance holdings prices smap cmap).top_gainers,
      ∃ h ∈ holdings, includeHolding prices h = true ∧ p.1 = h.ticker := by
  intro p hp
  have hg : (calculate_holdings_performance holdings prices smap cmap).top_gainers
      = (((calculate_holdings_performance holdings prices smap cmap).portfolio_data.take 5).filter
          fun s => decide (0 < s.gain_loss_pct)).map
            fun s => (s.ticker, s.gain_loss_pct / 100) := rfl
  rw [hg] at hp
  obtain ⟨s, hs, rfl⟩ := List.mem_map.1 hp
  have hs1 : s ∈ (calculate_holdings_performance holdings prices smap cmap).portfolio_data :=
    List.take_subset 5 _ (List.mem_of_mem_filter hs)
  obtain ⟨h, hh, hinc, rfl⟩ := mem_portfolioData_of_mem_sorted holdings prices smap cmap s hs1
  exact ⟨h, hh, hinc, rfl⟩

theorem losers_from_included (holdings : List Holding) (prices : List (String × ℚ))
    (smap cmap : List (String × String)) :
    ∀ p ∈ (calculate_holdings_performance holdings prices smap cmap).top_losers,
      ∃ h ∈ holdings, includeHolding prices h = true ∧ p.1 = h.ticker := by
  intro p hp
  have hl : (calculate_holdings_performance holdings prices smap cmap).top_losers
      = ((((calculate_holdings_performance holdings prices smap cmap).portfolio_data.drop
            ((calculate_holdings_performance holdings prices smap cmap).portfolio_data.length - 5)).filter
          fun s => decide (s.gain_loss_pct < 0)).map
            fun s => (s.ticker, s.gain_loss_pct / 100)).reverse := rfl
  rw [hl] at hp
  obtain ⟨s, hs, rfl⟩ := List.mem_map.1 (List.mem_reverse.1 hp)
  have hs1 : s ∈ (calculate_holdings_performance holdings prices smap cmap).portfolio_data :=
    List.drop_subset _ _ (List.mem_of_mem_filter hs)
  obtain ⟨h, hh, hinc, rfl⟩ := mem_portfolioData_of_mem_sorted holdings prices smap cmap s hs1
  exact ⟨h, hh, hinc, rfl⟩

/-- C2: a holding enters the per-holding breakdown, `total_invested` and
`total_current_value` exactly when its current price and entry price are both
positive; holdings failing the guard contribute to no aggregate (the breakdown
is a permutation of the guarded holdings' records, the totals are sums over
the guarded holdings only, and gainers/losers are drawn from guarded holdings),
and the computation is total — no error is produced. -/
theorem calculate_holdings_performance_inclusion (holdings : List Holding)
    (prices : List (String × ℚ)) (smap cmap : List (String × String)) :
    (∀ h : Holding, includeHolding prices h = true
        ↔ (0 < dictGet prices h.ticker 0 ∧ 0 < h.entry_price)) ∧
    (calculate_holdings_performance holdings prices smap cmap).portfolio_data.Perm
      ((includedHoldings holdings prices).map (mkStockPerf prices smap cmap)) ∧
    (calculate_holdings_performance holdings prices smap cmap).total_invested
      = ((includedHoldings holdings prices).map fun h => h.entry_price * h.quantity).sum ∧
    (calculate_holdings_performance holdings prices smap cmap).total_current_value
      = ((includedHoldings holdings prices).map fun h => dictGet prices h.ticker 0 * h.quantity).sum ∧
    (∀ p ∈ (calculate_holdings_performance holdings prices smap cmap).top_gainers,
      ∃ h ∈ holdings, includeHolding prices h = true ∧ p.1 = h.ticker) ∧
    (∀ p ∈ (calculate_holdings_performance holdings prices smap cmap).top_losers,
      ∃ h ∈ holdings, includeHolding prices h = true ∧ p.1 = h.ticker) :=
  ⟨fun h => by simp [includeHolding],
   portfolio_data_perm holdings prices smap cmap,
   total_invested_eq holdings prices smap cmap,
   total_current_value_eq holdings prices smap cmap,
   gainers_from_included holdings prices smap cmap,
   losers_from_included holdings prices smap cmap⟩

/-- Sum of the values of an association map. -/
def sumValues (m : List (String × ℚ)) : ℚ := (m.map Prod.snd).sum

theorem sumValues_addTo (m : List (String × ℚ)) (k : String) (v : ℚ) :
    sumValues (addTo m k v) = sumValues m + v := by
  induction m with
  | nil => simp [addTo, sumValues]
  | cons p rest ih =>
      obtain ⟨k', v'⟩ := p
      by_cases hk : k' = k
      · simp only [addTo, if_pos hk, sumValues, List.map_cons, List.sum_cons]
        ring
      · simp only [addTo, if_neg hk, sumValues, List.map_cons, List.sum_cons]
        have ih2 : (List.map Prod.snd (addTo rest k v)).sum
            = (List.map Prod.snd rest).sum + v := ih
        rw [ih2]
        ring

theorem dictGet_addTo (m : List (String × ℚ)) (k k' : String) (v : ℚ) :
    dictGet (addTo m k v) k' 0 = dictGet m k' 0 + (if k' = k then v else 0) := by
  induction m with
  | nil =>
      by_cases hk : k' = k
      · subst hk
        simp [addTo, dictGet, List.lookup]
      · have hb : (k' == k) = false := beq_false_of_ne hk
        simp [addTo, dictGet, List.lookup, hb, hk]
  | cons p rest ih =>
      obtain ⟨k₀, v₀⟩ := p
      by_cases h0 : k₀ = k
      · subst h0
        by_cases hk : k' = k₀
        · subst hk
          simp [addTo, dictGet, List.lookup]
        · have hb : (k' == k₀) = false := beq_false_of_ne hk
          simp [addTo, dictGet, List.lookup, hb, hk]
      · by_cases hk : k' = k₀
        · have hk2 : ¬ k' = k := by rw [hk]; exact h0
          have hb : (k' == k₀) = true := beq_iff_eq.2 hk
          simp [addTo, if_neg h0, dictGet, List.lookup, hb, hk2]
        · have hb : (k' == k₀) = false := beq_false_of_ne hk
          simp only [addTo, if_neg h0, dictGet, List.lookup, hb] at *
          exact ih

theorem sumValues_exposure_fold (key : StockPerf → String) (wt : StockPerf → ℚ) :
    ∀ (data : List StockPerf) (m : List (String × ℚ)),
      sumValues (data.foldl (fun m s => addTo m (key s) (wt s)) m)
        = sumValues m + (data.map wt).sum := by
  intro data
  induction data with
  | nil => simp
  | cons s rest ih =>
      intro m
      simp only [List.foldl_cons, List.map_cons, List.sum_cons]
      rw [ih, sumValues_addTo]
      ring

theorem dictGet_exposure_fold (key : StockPerf → String) (wt : StockPerf → ℚ) :
    ∀ (data : List StockPerf) (m : List (String × ℚ)) (k : String),
      dictGet (data.foldl (fun m s => addTo m (key s) (wt s)) m) k 0
        = dictGet m k 0 + ((data.filter fun s => decide (key s = k)).map wt).sum := by
  intro data
  induction data with
  | nil => simp
  | cons s rest ih =>
      intro m k
      simp only [List.foldl_cons, List.filter_cons]
      rw [ih, dictGet_addTo]
      by_cases hk : key s = k
      · subst hk
        simp only [List.map_cons, List.sum_cons, decide_eq_true_eq, if_pos rfl, if_true]
        ring
      · have hk2 : ¬ k = key s := fun h => hk h.symm
        simp only [if_neg hk2, decide_eq_true_eq, if_neg hk, add_zero]

theorem sum_map_div (data : List StockPerf) (f : StockPerf → ℚ) (t : ℚ) :
    (data.map fun s => f s / t).sum = (data.map f).sum / t := by
  induction data with
  | nil => simp
  | cons s rest ih => simp only [List.map_cons, List.sum_cons, ih]; rw [add_div]

theorem sumValues_exposureMap (key : StockPerf → String) (total : ℚ)
    (data : List StockPerf) (ht : 0 < total) :
    sumValues (exposureMap key total data) = (data.map (·.current_value)).sum / total := by
  rw [exposureMap, if_pos ht, sumValues_exposure_fold]
  simp [sumValues, sum_map_div]

theorem dictGet_exposureMap (key : StockPerf → String) (total : ℚ)
    (data : List StockPerf) (ht : 0 < total) (k : String) :
    dictGet (exposureMap key total data) k 0
      = ((data.filter fun s => decide (key s = k)).map fun s => s.current_value / total).sum := by
  rw [exposureMap, if_pos ht, dictGet_exposure_fold]
  simp [dictGet, List.lookup]

theorem sorted_current_value_sum (holdings : List Holding) (prices : List (String × ℚ))
    (smap cmap : List (String × String)) :
    ((calculate_holdings_performance holdings prices smap cmap).portfolio_data.map
        (·.current_value)).sum
      = (calculate_holdings_performance holdings prices smap cmap).total_current_value := by
  have h0 : (calculate_holdings_performance holdings prices smap cmap).portfolio_data
      = (portfolioData holdings prices smap cmap).mergeSort descByPct := rfl
  have h1 : (calculate_holdings_performance holdings prices smap cmap).total_current_value
      = ((portfolioData holdings prices smap cmap).map (·.current_value)).sum := rfl
  rw [h0, h1]
  exact ((List.mergeSort_perm _ descByPct).map (·.current_value)).sum_eq

/-- C3: whenever `total_current_value > 0` and at least one holding is
included, the values of `sector_exposure` sum to 1 and the values of
`asset_allocation` independently sum to 1; the value stored under each key is
the sum of the same per-holding weight `current_value / total_current_value`
over the included holdings carrying that sector (resp. asset class). -/
theorem exposure_sums_to_one (holdings : List Holding) (prices : List (String × ℚ))
    (smap cmap : List (String × String))
    (htot : 0 < (calculate_holdings_performance holdings prices smap cmap).total_current_value)
    (hne : includedHoldings holdings prices ≠ []) :
    sumValues (calculate_holdings_performance holdings prices smap cmap).sector_exposure = 1 ∧
    sumValues (calculate_holdings_performance holdings prices smap cmap).asset_allocation = 1 ∧
    (∀ k, dictGet (calculate_holdings_performance holdings prices smap cmap).sector_exposure k 0
      = (((calculate_holdings_performance holdings prices smap cmap).portfolio_data.filter
            fun s => decide (s.sector = k)).map
          fun s => s.current_value
            / (calculate_holdings_performance holdings prices smap cmap).total_current_value).sum) ∧
    (∀ k, dictGet (calculate_holdings_performance holdings prices smap cmap).asset_allocation k 0
      = (((calculate_holdings_performance holdings prices smap cmap).portfolio_data.filter
            fun s => decide (s.asset_class = k)).map
          fun s => s.current_value
            / (calculate_holdings_performance holdings prices smap cmap).total_current_value).sum) := by
  have hsec : (calculate_holdings_performance holdings prices smap cmap).sector_exposure
      = exposureMap (·.sector)
          (calculate_holdings_performance holdings prices smap cmap).total_current_value
          (calculate_holdings_performance holdings prices smap cmap).portfolio_data := rfl
  have hcls : (calculate_holdings_performance holdings prices smap cmap).asset_allocation
      = exposureMap (·.asset_class)
          (calculate_holdings_performance holdings prices smap cmap).total_current_value
          (calculate_holdings_performance holdings prices smap cmap).portfolio_data := rfl
  refine ⟨?_, ?_, ?_, ?_⟩
  · rw [hsec, sumValues_exposureMap _ _ _ htot, sorted_current_value_sum,
      div_self (ne_of_gt htot)]
  · rw [hcls, sumValues_exposureMap _ _ _ htot, sorted_current_value_sum,
      div_self (ne_of_gt htot)]
  · intro k; rw [hsec, dictGet_exposureMap _ _ _ htot]
  · intro k; rw [hcls, dictGet_exposureMap _ _ _ htot]

/-- Witness for C3 at a concrete one-holding portfolio. -/
theorem exposure_sums_to_one_witness :
    (0 < (calculate_holdings_performance [⟨"A", "2024-01-01", 1, 1⟩] [("A", 1)] [] []).total_current_value ∧
     includedHoldings [⟨"A", "2024-01-01", 1, 1⟩] [("A", 1)] ≠ []) ∧
    sumValues (calculate_holdings_performance [⟨"A", "2024-01-01", 1, 1⟩] [("A", 1)] [] []).sector_exposure = 1 :=
  ⟨⟨by simp [calculate_holdings_performance, portfolioData, includeHolding, dictGet,
        List.lookup, mkStockPerf],
    by simp [includedHoldings, includeHolding, dictGet, List.lookup]⟩,
   (exposure_sums_to_one [⟨"A", "2024-01-01", 1, 1⟩] [("A", 1)] [] []
      (by simp [calculate_holdings_performance, portfolioData, includeHolding, dictGet,
        List.lookup, mkStockPerf])
      (by simp [includedHoldings, includeHolding, dictGet, List.lookup])).1⟩

/-- Witness for C2 at a concrete two-holding portfolio in which the second
holding fails the guard (no price is available for it). -/
theorem calculate_holdings_performance_inclusion_witness :
    (calculate_holdings_performance
        [⟨"A", "2024-01-01", 1, 1⟩, ⟨"B", "2024-01-01", 1, 1⟩] [("A", 1)] []
        []).total_invested
      = ((includedHoldings [⟨"A", "2024-01-01", 1, 1⟩, ⟨"B", "2024-01-01", 1, 1⟩]
          [("A", 1)]).map fun h => h.entry_price * h.quantity).sum :=
  (calculate_holdings_performance_inclusion
    [⟨"A", "2024-01-01", 1, 1⟩, ⟨"B", "2024-01-01", 1, 1⟩] [("A", 1)] [] []).2.2.1

theorem descByPct_trans : ∀ a b c, descByPct a b = true → descByPct b c = true →
    descByPct a c = true := by
  intro a b c hab hbc
  simp only [descByPct, decide_eq_true_eq] at *
  exact le_trans hbc hab

theorem descByPct_total : ∀ a b, (descByPct a b || descByPct b a) = true := by
  intro a b
  simp only [descByPct, Bool.or_eq_true, decide_eq_true_eq]
  exact le_total b.gain_loss_pct a.gain_loss_pct

theorem portfolio_data_pairwise (holdings : List Holding) (prices : List (String × ℚ))
    (smap cmap : List (String × String)) :
    (calculate_holdings_performance holdings prices smap cmap).portfolio_data.Pairwise
      (fun a b => b.gain_loss_pct ≤ a.gain_loss_pct) := by
  have h0 : (calculate_holdings_performance holdings prices smap cmap).portfolio_data
      = (portfolioData holdings prices smap cmap).mergeSort descByPct := rfl
  rw [h0]
  have hs := List.sorted_mergeSort descByPct_trans descByPct_total
    (portfolioData holdings prices smap cmap)
  exact hs.imp fun h => by
    simpa [descByPct, decide_eq_true_eq] using h

/-- C4: with the breakdown sorted by `gain_loss_pct` descending, `top_gainers`
is the first five entries restricted to strictly positive `gain_loss_pct`
(values divided by 100) and `top_losers` is the last five entries restricted
to strictly negative `gain_loss_pct`, reversed so the worst comes first; both
lists have at most five entries, `top_gainers` is descending and `top_losers`
ascending (most negative first). -/
theorem top_gainers_losers_spec (holdings : List Holding) (prices : List (String × ℚ))
    (smap cmap : List (String × String)) :
    (calculate_holdings_performance holdings prices smap cmap).top_gainers
      = (((calculate_holdings_performance holdings prices smap cmap).portfolio_data.take 5).filter
          fun s => decide (0 < s.gain_loss_pct)).map
            (fun s => (s.ticker, s.gain_loss_pct / 100)) ∧
    (calculate_holdings_performance holdings prices smap cmap).top_losers
      = ((((calculate_holdings_performance holdings prices smap cmap).portfolio_data.drop
            ((calculate_holdings_performance holdings prices smap cmap).portfolio_data.length - 5)).filter
          fun s => decide (s.gain_loss_pct < 0)).map
            (fun s => (s.ticker, s.gain_loss_pct / 100))).reverse ∧
    (calculate_holdings_performance holdings prices smap cmap).top_gainers.length ≤ 5 ∧
    (∀ p ∈ (calculate_holdings_performance holdings prices smap cmap).top_gainers, 0 < p.2) ∧
    (calculate_holdings_performance holdings prices smap cmap).top_gainers.Pairwise
      (fun a b => b.2 ≤ a.2) ∧
    (calculate_holdings_performance holdings prices smap cmap).top_losers.length ≤ 5 ∧
    (∀ p ∈ (calculate_holdings_performance holdings prices smap cmap).top_losers, p.2 < 0) ∧
    (calculate_holdings_performance holdings prices smap cmap).top_losers.Pairwise
      (fun a b => a.2 ≤ b.2) := by
  have hpw := portfolio_data_pairwise holdings prices smap cmap
  have hg : (calculate_holdings_performance holdings prices smap cmap).top_gainers
      = (((calculate_holdings_performance holdings prices smap cmap).portfolio_data.take 5).filter
          fun s => decide (0 < s.gain_loss_pct)).map
            (fun s => (s.ticker, s.gain_loss_pct / 100)) := rfl
  have hl : (calculate_holdings_performance holdings prices smap cmap).top_losers
      = ((((calculate_holdings_performance holdings prices smap cmap).portfolio_data.drop
            ((calculate_holdings_performance holdings prices smap cmap).portfolio_data.length - 5)).filter
          fun s => decide (s.gain_loss_pct < 0)).map
            (fun s => (s.ticker, s.gain_loss_pct / 100))).reverse := rfl
  refine ⟨hg, hl, ?_, ?_, ?_, ?_, ?_, ?_⟩
  · rw [hg]
    calc ((((calculate_holdings_performance holdings prices smap cmap).portfolio_data.take 5).filter
            fun s => decide (0 < s.gain_loss_pct)).map
              (fun s => (s.ticker, s.gain_loss_pct / 100))).length
        = (((calculate_holdings_performance holdings prices smap cmap).portfolio_data.take 5).filter
            fun s => decide (0 < s.gain_loss_pct)).length := List.length_map _ _
      _ ≤ ((calculate_holdings_performance holdings prices smap cmap).portfolio_data.take 5).length :=
          List.length_filter_le _ _
      _ ≤ 5 := by simp [List.length_take]
  · intro p hp
    rw [hg] at hp
    obtain ⟨s, hs, rfl⟩ := List.mem_map.1 hp
    have hpos : 0 < s.gain_loss_pct := by
      have := (List.mem_filter.1 hs).2
      simpa using this
    exact div_pos hpos (by norm_num)
  · rw [hg]
    refine (List.pairwise_map).2 ?_
    have h1 : (((calculate_holdings_performance holdings prices smap cmap).portfolio_data.take 5).filter
        fun s => decide (0 < s.gain_loss_pct)).Pairwise
          (fun a b => b.gain_loss_pct ≤ a.gain_loss_pct) :=
      (hpw.sublist (List.take_sublist 5 _)).filter _
    exact h1.imp fun h => by
      exact div_le_div_of_nonneg_right h (by norm_num) |>.trans_eq rfl
  · rw [hl]
    calc (((((calculate_holdings_performance holdings prices smap cmap).portfolio_data.drop
            ((calculate_holdings_performance holdings prices smap cmap).portfolio_data.length - 5)).filter
          fun s => decide (s.gain_loss_pct < 0)).map
            (fun s => (s.ticker, s.gain_loss_pct / 100))).reverse).length
        = ((((calculate_holdings_performance holdings prices smap cmap).portfolio_data.drop
            ((calculate_holdings_performance holdings prices smap cmap).portfolio_data.length - 5)).filter
          fun s => decide (s.gain_loss_pct < 0)).map
            (fun s => (s.ticker, s.gain_loss_pct / 100))).length := List.length_reverse _
      _ = (((calculate_holdings_performance holdings prices smap cmap).portfolio_data.drop
            ((calculate_holdings_performance holdings prices smap cmap).portfolio_data.length - 5)).filter
          fun s => decide (s.gain_loss_pct < 0)).length := List.length_map _ _
      _ ≤ ((calculate_holdings_performance holdings prices smap cmap).portfolio_data.drop
            ((calculate_holdings_performance holdings prices smap cmap).portfolio_data.length - 5)).length :=
          List.length_filter_le _ _
      _ ≤ 5 := by simp [List.length_drop]; omega
  · intro p hp
    rw [hl] at hp
    obtain ⟨s, hs, rfl⟩ := List.mem_map.1 (List.mem_reverse.1 hp)
    have hneg : s.gain_loss_pct < 0 := by
      have := (List.mem_filter.1 hs).2
      simpa using this
    exact div_neg_of_neg_of_pos hneg (by norm_num)
  · rw [hl]
    refine (List.pairwise_reverse).2 ?_
    refine (List.pairwise_map).2 ?_
    have h1 : (((calculate_holdings_performance holdings prices smap cmap).portfolio_data.drop
          ((calculate_holdings_performance holdings prices smap cmap).portfolio_data.length - 5)).filter
        fun s => decide (s.gain_loss_pct < 0)).Pairwise
          (fun a b => b.gain_loss_pct ≤ a.gain_loss_pct) :=
      (hpw.sublist (List.drop_sublist _ _)).filter _
    exact h1.imp fun h => div_le_div_of_nonneg_right h (by norm_num)

/-- Witness for C4 at a concrete one-holding portfolio. -/
theorem top_gainers_losers_spec_witness :
    (calculate_holdings_performance [⟨"A", "2024-01-01", 1, 1⟩] [("A", 1)] []
        []).top_gainers.length ≤ 5 :=
  ((top_gainers_losers_spec [⟨"A", "2024-01-01", 1, 1⟩] [("A", 1)] [] []).2.2.1)

/-- `np.dot` of two vectors (the call sites use equal lengths). -/
def dot (xs ys : List ℚ) : ℚ := (List.zipWith (· * ·) xs ys).sum

/-- Number of columns of a row-major matrix (`shape[1]`). -/
def ncols (R : List (List ℚ)) : ℕ := (R.headD []).length

/-- One column mean of `returns_df.mean()`. -/
def colMean (R : List (List ℚ)) (j : ℕ) : ℚ :=
  (R.map fun r => r.getD j 0).sum / (R.length : ℚ)

/-- `returns_df.mean().values`. -/
def meanVec (R : List (List ℚ)) : List ℚ := (List.range (ncols R)).map (colMean R)

/-- One entry of `returns_df.cov()` (sample covariance, `ddof = 1`). -/
def covEntry (R : List (List ℚ)) (i j : ℕ) : ℚ :=
  (R.map fun r => (r.getD i 0 - colMean R i) * (r.getD j 0 - colMean R j)).sum
    / ((R.length : ℚ) - 1)

/-- `returns_df.cov().values`. -/
def covMatrix (R : List (List ℚ)) : List (List ℚ) :=
  (List.range (ncols R)).map fun i => (List.range (ncols R)).map (covEntry R i)

/-- `np.dot(Sigma, w)`: matrix–vector product, row by row. -/
def matVec (M : List (List ℚ)) (w : List ℚ) : List ℚ := M.map fun row => dot row w

/-- The quadratic form `wᵗ Σ w` written as the explicit double sum used by the
specification. -/
def quadForm (R : List (List ℚ)) (w : List ℚ) : ℚ :=
  ((List.range (ncols R)).map fun i =>
    ((List.range (ncols R)).map fun j => w.getD i 0 * covEntry R i j * w.getD j 0).sum).sum

/-- Shallow embedding of `portfolio_stats`; `sq` abstracts `np.sqrt`, which is
external to the repository. -/
def portfolio_stats (sq : ℚ → ℚ) (w : List ℚ) (R : List (List ℚ)) (rf : ℚ) :
    ℚ × ℚ × ℚ :=
  let port_return := dot w (meanVec R) * 252
  let port_vol := sq (dot w (matVec (covMatrix R) w)) * sq 252
  let sharpe := if 0 < port_vol then (port_return - rf) / port_vol else 0
  (port_return, port_vol, sharpe)

theorem dot_cons (a b : ℚ) (as bs : List ℚ) :
    dot (a :: as) (b :: bs) = a * b + dot as bs := by
  simp [dot]

theorem dot_eq_sum_range : ∀ (xs ys : List ℚ), ys.length = xs.length →
    dot xs ys = ((List.range xs.length).map fun i => xs.getD i 0 * ys.getD i 0).sum := by
  intro xs
  induction xs with
  | nil => intro ys h; simp [dot]
  | cons a as ih =>
      intro ys h
      cases ys with
      | nil => simp at h
      | cons b bs =>
          simp only [List.length_cons] at h
          have h2 : bs.length = as.length := by omega
          rw [dot_cons, ih bs h2, List.length_cons, List.range_succ_eq_map, List.map_cons,
            List.map_map]
          simp only [List.getD_cons_zero, List.sum_cons, List.getD_eq_getElem?_getD]
          congr 1
          · simp
          · refine congrArg List.sum ?_
            exact (List.map_congr_left fun i _ => by
              simp [Function.comp, List.getElem?_cons_succ]).symm

theorem getD_map_range (f : ℕ → ℚ) (n i : ℕ) (hi : i < n) :
    (((List.range n).map f).getD i 0) = f i := by
  rw [List.getD_eq_getElem?_getD, List.getElem?_map, List.getElem?_range hi]
  rfl

theorem dot_matVec_eq_quadForm (R : List (List ℚ)) (w : List ℚ) (h : w.length = ncols R) :
    dot w (matVec (covMatrix R) w) = quadForm R w := by
  have hmv : matVec (covMatrix R) w
      = (List.range (ncols R)).map
          fun i => dot ((List.range (ncols R)).map (covEntry R i)) w := by
    simp [matVec, covMatrix, List.map_map, Function.comp]
  have hlen : (matVec (covMatrix R) w).length = w.length := by
    simp [hmv, h]
  rw [dot_eq_sum_range w (matVec (covMatrix R) w) hlen, quadForm, h]
  refine congrArg List.sum (List.map_congr_left ?_)
  intro i hi
  have hi2 : i < ncols R := List.mem_range.1 hi
  rw [hmv, getD_map_range _ _ _ hi2,
    dot_eq_sum_range ((List.range (ncols R)).map (covEntry R i)) w (by simp [h]),
    List.length_map, List.length_range, ← List.sum_map_mul_left]
  refine congrArg List.sum (List.map_congr_left ?_)
  intro j hj
  have hj2 : j < ncols R := List.mem_range.1 hj
  rw [getD_map_range _ _ _ hj2]
  ring

/-- C5: for a weight vector summing to 1, `portfolio_stats` returns
`annualized_return = (w ⬝ mean R) * 252` and
`annualized_volatility = sq (wᵗ (cov R) w) * sq 252`; the Sharpe component is
`(return − rf) / volatility` when the volatility is positive and exactly 0
when it is 0, so no division by zero is performed and no error is signalled
(the function is total). -/
theorem portfolio_stats_spec (sq : ℚ → ℚ) (w : List ℚ) (R : List (List ℚ)) (rf : ℚ)
    (hsum : w.sum = 1) (hlen : w.length = ncols R) :
    (portfolio_stats sq w R rf).1 = dot w (meanVec R) * 252 ∧
    (portfolio_stats sq w R rf).2.1 = sq (quadForm R w) * sq 252 ∧
    (0 < (portfolio_stats sq w R rf).2.1 →
      (portfolio_stats sq w R rf).2.2
        = ((portfolio_stats sq w R rf).1 - rf) / (portfolio_stats sq w R rf).2.1) ∧
    ((portfolio_stats sq w R rf).2.1 = 0 → (portfolio_stats sq w R rf).2.2 = 0) := by
  have hdef : (portfolio_stats sq w R rf).2.2
      = if 0 < (portfolio_stats sq w R rf).2.1 then
          ((portfolio_stats sq w R rf).1 - rf) / (portfolio_stats sq w R rf).2.1
        else 0 := rfl
  refine ⟨rfl, ?_, ?_, ?_⟩
  · show sq (dot w (matVec (covMatrix R) w)) * sq 252 = sq (quadForm R w) * sq 252
    rw [dot_matVec_eq_quadForm R w hlen]
  · intro hv
    rw [hdef, if_pos hv]
  · intro hv
    rw [hdef, hv]
    simp

/-- Witness for C5 at a concrete weight vector and returns matrix. -/
theorem portfolio_stats_spec_witness :
    (([(1 : ℚ)].sum = 1 ∧ [(1 : ℚ)].length = ncols [[0], [0]]) ∧
     (portfolio_stats (fun _ => 0) [(1 : ℚ)] [[0], [0]] 0).1
       = dot [(1 : ℚ)] (meanVec [[0], [0]]) * 252) :=
  ⟨⟨by simp, rfl⟩,
   (portfolio_stats_spec (fun _ => 0) [(1 : ℚ)] [[0], [0]] 0 (by simp) rfl).1⟩

/-- Tail of a running maximum: each element is the max of the accumulator and
all elements so far. -/
def cummaxAux (acc : ℚ) : List ℚ → List ℚ
  | [] => []
  | y :: ys => max acc y :: cummaxAux (max acc y) ys

/-- `cum_returns.cummax()`. -/
def cummax : List ℚ → List ℚ
  | [] => []
  | x :: xs => x :: cummaxAux x xs

/-- Tail of a running product. -/
def cumprodAux (acc : ℚ) : List ℚ → List ℚ
  | [] => []
  | y :: ys => acc * y :: cumprodAux (acc * y) ys

/-- pandas `.cumprod()` (applied in the source to the series `1 + r`). -/
def cumprod : List ℚ → List ℚ
  | [] => []
  | x :: xs => x :: cumprodAux x xs

/-- pandas `.min()` of a series (0 on the empty series, which the call sites
never produce). -/
def listMin : List ℚ → ℚ
  | [] => 0
  | x :: xs => xs.foldl min x

/-- pandas `.max()` of a series, used to state the running maximum. -/
def listMax : List ℚ → ℚ
  | [] => 0
  | x :: xs => xs.foldl max x

/-- The drawdown series `(cum_returns - roll_max) / roll_max`. -/
def drawdowns (c : List ℚ) : List ℚ :=
  List.zipWith (fun cv m => (cv - m) / m) c (cummax c)

/-- Shallow embedding of `max_drawdown`. -/
def max_drawdown (cum_returns : List ℚ) : ℚ := listMin (drawdowns cum_returns)

/-- `returns_df.dot(w)`: the portfolio return series. -/
def portReturns (R : List (List ℚ)) (w : List ℚ) : List ℚ := R.map fun r => dot r w

/-- The `mdd` objective of `optimize_portfolio_weights`:
`abs(max_drawdown((1 + returns_df.dot(w)).cumprod()))`. -/
def mdd_objective (R : List (List ℚ)) (w : List ℚ) : ℚ :=
  |max_drawdown (cumprod ((portReturns R w).map fun r => 1 + r))|

theorem cummaxAux_length (a : ℚ) : ∀ ys : List ℚ, (cummaxAux a ys).length = ys.length := by
  intro ys
  induction ys generalizing a with
  | nil => rfl
  | cons y ys ih => simp [cummaxAux, ih]

theorem cummax_length (c : List ℚ) : (cummax c).length = c.length := by
  cases c with
  | nil => rfl
  | cons x xs => simp [cummax, cummaxAux_length]

theorem cummaxAux_getD : ∀ (ys : List ℚ) (a : ℚ) (t : ℕ), t < ys.length →
    (cummaxAux a ys).getD t 0 = (ys.take (t + 1)).foldl max a := by
  intro ys
  induction ys with
  | nil => intro a t ht; simp at ht
  | cons y ys ih =>
      intro a t ht
      cases t with
      | zero => simp [cummaxAux]
      | succ t =>
          simp only [List.length_cons] at ht
          have ht2 : t < ys.length := by omega
          simp only [cummaxAux, List.getD_cons_succ, List.take_succ_cons, List.foldl_cons]
          exact ih (max a y) t ht2

theorem cummax_getD (c : List ℚ) (t : ℕ) (ht : t < c.length) :
    (cummax c).getD t 0 = listMax (c.take (t + 1)) := by
  cases c with
  | nil => simp at ht
  | cons x xs =>
      cases t with
      | zero => simp [cummax, listMax]
      | succ t =>
          simp only [List.length_cons] at ht
          have ht2 : t < xs.length := by omega
          simp only [cummax, List.getD_cons_succ, List.take_succ_cons, listMax]
          exact cummaxAux_getD xs x t ht2

/-- The drawdown series written as the indexed formula of the specification:
at each `t`, `(C_t - max C_{≤t}) / max C_{≤t}`. -/
theorem drawdowns_eq_indexed (c : List ℚ) :
    drawdowns c = (List.range c.length).map
      fun t => (c.getD t 0 - listMax (c.take (t + 1))) / listMax (c.take (t + 1)) := by
  refine List.ext_getElem ?_ ?_
  · simp [drawdowns, List.length_zipWith, cummax_length]
  · intro n h1 h2
    simp only [drawdowns] at h1
    have hn : n < c.length := by
      simpa [List.length_zipWith, cummax_length] using h1
    have hcm : n < (cummax c).length := by rw [cummax_length]; exact hn
    rw [List.getElem_map, List.getElem_range]
    simp only [drawdowns, List.getElem_zipWith]
    rw [← List.getD_eq_getElem c 0 hn, ← List.getD_eq_getElem (cummax c) 0 hcm,
      cummax_getD c n hn]

theorem foldl_min_le_init (l : List ℚ) : ∀ a : ℚ, l.foldl min a ≤ a := by
  induction l with
  | nil => intro a; simp
  | cons x xs ih =>
      intro a
      calc (x :: xs).foldl min a = xs.foldl min (min a x) := rfl
        _ ≤ min a x := ih (min a x)
        _ ≤ a := min_le_left a x

theorem foldl_min_le_mem (l : List ℚ) : ∀ (a x : ℚ), x ∈ l → l.foldl min a ≤ x := by
  induction l with
  | nil => intro a x hx; simp at hx
  | cons y ys ih =>
      intro a x hx
      rcases List.mem_cons.1 hx with h | h
      · subst h
        calc (x :: ys).foldl min a = ys.foldl min (min a x) := rfl
          _ ≤ min a x := foldl_min_le_init ys (min a x)
          _ ≤ x := min_le_right a x
      · exact ih (min a y) x h

theorem foldl_min_mem (l : List ℚ) : ∀ a : ℚ, l.foldl min a = a ∨ l.foldl min a ∈ l := by
  induction l with
  | nil => intro a; left; rfl
  | cons y ys ih =>
      intro a
      rcases ih (min a y) with h | h
      · rcases min_cases a y with ⟨he, _⟩ | ⟨he, _⟩
        · left; rw [show (y :: ys).foldl min a = ys.foldl min (min a y) from rfl, h, he]
        · right
          rw [show (y :: ys).foldl min a = ys.foldl min (min a y) from rfl, h, he]
          exact List.mem_cons_self y ys
      · right
        exact List.mem_cons_of_mem y h

theorem listMin_mem (l : List ℚ) (h : l ≠ []) : listMin l ∈ l := by
  cases l with
  | nil => exact absurd rfl h
  | cons x xs =>
      rcases foldl_min_mem xs x with h1 | h1
      · rw [listMin, h1]; exact List.mem_cons_self x xs
      · rw [listMin]; exact List.mem_cons_of_mem x h1

theorem listMin_le (l : List ℚ) (x : ℚ) (hx : x ∈ l) : listMin l ≤ x := by
  cases l with
  | nil => simp at hx
  | cons y ys =>
      rcases List.mem_cons.1 hx with h | h
      · subst h; exact foldl_min_le_init ys x
      · exact foldl_min_le_mem ys y x h

theorem drawdowns_head_zero (x : ℚ) (xs : List ℚ) :
    drawdowns (x :: xs) = 0 :: List.zipWith (fun cv m => (cv - m) / m) xs (cummaxAux x xs) := by
  simp [drawdowns, cummax]

theorem max_drawdown_nonpos (c : List ℚ) (hc : c ≠ []) : max_drawdown c ≤ 0 := by
  cases c with
  | nil => exact absurd rfl hc
  | cons x xs =>
      rw [max_drawdown, drawdowns_head_zero, listMin]
      exact foldl_min_le_init _ 0

theorem cumprod_ne_nil (x : ℚ) (xs : List ℚ) : cumprod (x :: xs) ≠ [] := by
  simp [cumprod]

/-- C7: the `mdd` objective is the absolute value of `max_drawdown` of the
cumulative series `C_t = Π (1 + r_t)` of the portfolio returns `R·w`;
`max_drawdown` is the minimum over `t` of
`(C_t − running_max C_{≤t}) / running_max C_{≤t}` (it is attained in the
drawdown series and bounds it below), and it is non-positive, so the objective
equals its negation. -/
theorem mdd_objective_spec (R : List (List ℚ)) (w : List ℚ) (hR : R ≠ []) :
    mdd_objective R w
      = |max_drawdown (cumprod ((portReturns R w).map fun r => 1 + r))| ∧
    (∀ c : List ℚ, drawdowns c = (List.range c.length).map
      fun t => (c.getD t 0 - listMax (c.take (t + 1))) / listMax (c.take (t + 1))) ∧
    (∀ c : List ℚ, c ≠ [] →
      max_drawdown c ∈ drawdowns c ∧ (∀ x ∈ drawdowns c, max_drawdown c ≤ x) ∧
      max_drawdown c ≤ 0) ∧
    mdd_objective R w
      = -(max_drawdown (cumprod ((portReturns R w).map fun r => 1 + r))) := by
  have hmem : ∀ c : List ℚ, c ≠ [] →
      max_drawdown c ∈ drawdowns c ∧ (∀ x ∈ drawdowns c, max_drawdown c ≤ x) ∧
      max_drawdown c ≤ 0 := by
    intro c hc
    have hdne : drawdowns c ≠ [] := by
      cases c with
      | nil => exact absurd rfl hc
      | cons x xs => rw [drawdowns_head_zero]; exact List.cons_ne_nil _ _
    exact ⟨listMin_mem _ hdne, fun x hx => listMin_le _ x hx, max_drawdown_nonpos c hc⟩
  refine ⟨rfl, drawdowns_eq_indexed, hmem, ?_⟩
  have hne : cumprod ((portReturns R w).map fun r => 1 + r) ≠ [] := by
    cases R with
    | nil => exact absurd rfl hR
    | cons r rest => exact cumprod_ne_nil _ _
  rw [mdd_objective, abs_of_nonpos (max_drawdown_nonpos _ hne)]

/-- Witness for C7 at a concrete one-period, one-asset returns matrix. -/
theorem mdd_objective_spec_witness :
    (([[(0 : ℚ)]] : List (List ℚ)) ≠ [] ∧
     mdd_objective [[(0 : ℚ)]] [0]
       = -(max_drawdown (cumprod ((portReturns [[(0 : ℚ)]] [0]).map fun r => 1 + r)))) :=
  ⟨by simp, (mdd_objective_spec [[(0 : ℚ)]] [0] (by simp)).2.2.2⟩

/-- `neg_sharpe` objective closure of `optimize_portfolio_weights`. -/
def neg_sharpe (sq : ℚ → ℚ) (R : List (List ℚ)) (rf : ℚ) (w : List ℚ) : ℚ :=
  -(portfolio_stats sq w R rf).2.2

/-- `vol` objective closure of `optimize_portfolio_weights`. -/
def vol (sq : ℚ → ℚ) (R : List (List ℚ)) (rf : ℚ) (w : List ℚ) : ℚ :=
  (portfolio_stats sq w R rf).2.1

/-- Instrumented shallow embedding of `optimize_portfolio_weights`.  The
external constrained solver (`scipy.optimize.minimize` under bounds `[0,1]`
per weight and the equality constraint `sum w = 1`) is abstracted as `solver`,
mapping the chosen objective function and the equal-weight initial guess to a
weight vector; its contract is stated as hypotheses of the theorems below.
The second component of the result records the objective functions passed to
the solver, in order, so that "no solve" and "exactly one solve" are statable.
The `result.x` of the solve is used verbatim: no normalization is applied
after the solve. -/
def optimize_portfolio_weights (sq : ℚ → ℚ)
    (solver : (List ℚ → ℚ) → List ℚ → List ℚ)
    (cols : List String) (R : List (List ℚ)) (objective : String) (rf : ℚ) :
    Except String (List (String × ℚ) × ℚ × ℚ × ℚ) × List (List ℚ → ℚ) :=
  let n := ncols R
  let w0 := List.replicate n ((1 : ℚ) / (n : ℚ))
  let runSolve := fun (f : List ℚ → ℚ) =>
    let weights := solver f w0
    let s := portfolio_stats sq weights R rf
    (Except.ok (cols.zip weights, s.1, s.2.1, s.2.2), [f])
  if objective = "sharpe" then runSolve (neg_sharpe sq R rf)
  else if objective = "vol" then runSolve (vol sq R rf)
  else if objective = "mdd" then runSolve (mdd_objective R)
  else (Except.error "Unsupported objective", [])

/-- C9: an objective string outside `{"sharpe", "vol", "mdd"}` is rejected
with the `Unsupported objective` error and an empty solver trace — no solve is
attempted and no weights are produced; each supported objective performs
exactly one solve, with the objective function matching its name. -/
theorem optimize_objective_dispatch (sq : ℚ → ℚ)
    (solver : (List ℚ → ℚ) → List ℚ → List ℚ)
    (cols : List String) (R : List (List ℚ)) (objective : String) (rf : ℚ) :
    (objective ∉ ["sharpe", "vol", "mdd"] →
      optimize_portfolio_weights sq solver cols R objective rf
        = (Except.error "Unsupported objective", [])) ∧
    (objective = "sharpe" →
      (optimize_portfolio_weights sq solver cols R objective rf).2
        = [neg_sharpe sq R rf]) ∧
    (objective = "vol" →
      (optimize_portfolio_weights sq solver cols R objective rf).2 = [vol sq R rf]) ∧
    (objective = "mdd" →
      (optimize_portfolio_weights sq solver cols R objective rf).2 = [mdd_objective R]) ∧
    (objective ∈ ["sharpe", "vol", "mdd"] →
      (optimize_portfolio_weights sq solver cols R objective rf).2.length = 1 ∧
      ∃ res, (optimize_portfolio_weights sq solver cols R objective rf).1
        = Except.ok res) := by
  refine ⟨?_, ?_, ?_, ?_, ?_⟩
  · intro hobj
    have h1 : ¬ objective = "sharpe" := fun h => hobj (by simp [h])
    have h2 : ¬ objective = "vol" := fun h => hobj (by simp [h])
    have h3 : ¬ objective = "mdd" := fun h => hobj (by simp [h])
    simp [optimize_portfolio_weights, h1, h2, h3]
  · intro h; subst h
    simp [optimize_portfolio_weights]
  · intro h; subst h
    simp [optimize_portfolio_weights]
  · intro h; subst h
    simp [optimize_portfolio_weights]
  · intro hobj
    simp only [List.mem_cons, List.mem_singleton, List.not_mem_nil, or_false] at hobj
    rcases hobj with h | h | h <;> subst h <;>
      simp [optimize_portfolio_weights]

/-- Witness for C9: the objective string "momentum" is rejected with no
solver call, and "sharpe" produces a one-element solver trace. -/
theorem optimize_objective_dispatch_witness :
    optimize_portfolio_weights (fun _ => 0) (fun _ w0 => w0) ["A", "B"] [[0, 0]]
        "momentum" 0
      = (Except.error "Unsupported objective", []) ∧
    (optimize_portfolio_weights (fun _ => 0) (fun _ w0 => w0) ["A", "B"] [[0, 0]]
        "sharpe" 0).2
      = [neg_sharpe (fun _ => 0) [[0, 0]] 0] :=
  ⟨(optimize_objective_dispatch (fun _ => 0) (fun _ w0 => w0) ["A", "B"] [[0, 0]]
      "momentum" 0).1 (by simp),
   (optimize_objective_dispatch (fun _ => 0) (fun _ w0 => w0) ["A", "B"] [[0, 0]]
      "sharpe" 0).2.1 rfl⟩

/-- C1: for a returns matrix over at least two tickers and a supported
objective, when the solver honours its contract (returns an `n`-vector with
entries in `[0,1]` whose sum is within `ε` of 1), the weight mapping returned
by `optimize_portfolio_weights` carries the solver output verbatim — no
post-normalization — hence every returned weight lies in `[0,1]` and the
weights sum to 1 within the solver tolerance `ε`. -/
theorem optimize_weights_constraints (sq : ℚ → ℚ)
    (solver : (List ℚ → ℚ) → List ℚ → List ℚ)
    (cols : List String) (R : List (List ℚ)) (objective : String) (rf ε : ℚ)
    (hN : 2 ≤ ncols R)
    (hobj : objective ∈ ["sharpe", "vol", "mdd"])
    (hcols : cols.length = ncols R)
    (hlen : ∀ f : List ℚ → ℚ,
      (solver f (List.replicate (ncols R) ((1 : ℚ) / (ncols R : ℚ)))).length = ncols R)
    (hbound : ∀ (f : List ℚ → ℚ) (x : ℚ),
      x ∈ solver f (List.replicate (ncols R) ((1 : ℚ) / (ncols R : ℚ))) → 0 ≤ x ∧ x ≤ 1)
    (hsum : ∀ f : List ℚ → ℚ,
      |(solver f (List.replicate (ncols R) ((1 : ℚ) / (ncols R : ℚ)))).sum - 1| ≤ ε) :
    ∃ (f : List ℚ → ℚ) (wd : List (String × ℚ)) (s : ℚ × ℚ × ℚ),
      optimize_portfolio_weights sq solver cols R objective rf
        = (Except.ok (wd, s), [f]) ∧
      wd.map Prod.snd = solver f (List.replicate (ncols R) ((1 : ℚ) / (ncols R : ℚ))) ∧
      (∀ x ∈ wd.map Prod.snd, 0 ≤ x ∧ x ≤ 1) ∧
      |(wd.map Prod.snd).sum - 1| ≤ ε := by
  simp only [List.mem_cons, List.mem_singleton, List.not_mem_nil, or_false] at hobj
  have main : ∀ f : List ℚ → ℚ,
      (List.map Prod.snd
        (cols.zip (solver f (List.replicate (ncols R) ((1 : ℚ) / (ncols R : ℚ))))))
        = solver f (List.replicate (ncols R) ((1 : ℚ) / (ncols R : ℚ))) := by
    intro f
    exact List.map_snd_zip cols _ (by rw [hlen f, hcols])
  rcases hobj with h | h | h <;> subst h
  · refine ⟨neg_sharpe sq R rf,
      cols.zip (solver (neg_sharpe sq R rf) (List.replicate (ncols R) ((1 : ℚ) / (ncols R : ℚ)))),
      portfolio_stats sq
        (solver (neg_sharpe sq R rf) (List.replicate (ncols R) ((1 : ℚ) / (ncols R : ℚ)))) R rf,
      rfl, main _, ?_, ?_⟩
    · rw [main _]; exact fun x hx => hbound _ x hx
    · rw [main _]; exact hsum _
  · refine ⟨vol sq R rf,
      cols.zip (solver (vol sq R rf) (List.replicate (ncols R) ((1 : ℚ) / (ncols R : ℚ)))),
      portfolio_stats sq
        (solver (vol sq R rf) (List.replicate (ncols R) ((1 : ℚ) / (ncols R : ℚ)))) R rf,
      rfl, main _, ?_, ?_⟩
    · rw [main _]; exact fun x hx => hbound _ x hx
    · rw [main _]; exact hsum _
  · refine ⟨mdd_objective R,
      cols.zip (solver (mdd_objective R) (List.replicate (ncols R) ((1 : ℚ) / (ncols R : ℚ)))),
      portfolio_stats sq
        (solver (mdd_objective R) (List.replicate (ncols R) ((1 : ℚ) / (ncols R : ℚ)))) R rf,
      rfl, main _, ?_, ?_⟩
    · rw [main _]; exact fun x hx => hbound _ x hx
    · rw [main _]; exact hsum _

/-- Witness for C1: a two-ticker matrix with a solver returning `[1, 0]`. -/
theorem optimize_weights_constraints_witness :
    (2 ≤ ncols [[(0 : ℚ), 0]] ∧ "sharpe" ∈ ["sharpe", "vol", "mdd"] ∧
     (["A", "B"] : List String).length = ncols [[(0 : ℚ), 0]]) ∧
    ∃ (f : List ℚ → ℚ) (wd : List (String × ℚ)) (s : ℚ × ℚ × ℚ),
      optimize_portfolio_weights (fun _ => 0) (fun _ _ => [1, 0]) ["A", "B"]
          [[(0 : ℚ), 0]] "sharpe" 0
        = (Except.ok (wd, s), [f]) ∧
      wd.map Prod.snd
        = [(1 : ℚ), 0] ∧
      (∀ x ∈ wd.map Prod.snd, 0 ≤ x ∧ x ≤ 1) ∧
      |(wd.map Prod.snd).sum - 1| ≤ 0 :=
  ⟨⟨by decide, by simp, rfl⟩,
   optimize_weights_constraints (fun _ => 0) (fun _ _ => [1, 0]) ["A", "B"]
     [[(0 : ℚ), 0]] "sharpe" 0 0 (by decide) (by simp) rfl (fun _ => rfl)
     (fun f x hx => by
       rcases List.mem_cons.1 hx with h | h
       · subst h; exact ⟨zero_le_one, le_refl 1⟩
       · have h0 : x = 0 := by simpa using h
         subst h0; exact ⟨le_refl 0, zero_le_one⟩)
     (fun f => by simp)⟩

/-- `dropna(how="all")`: keep rows with at least one present entry. -/
def dropAllNaRows (rows : List (List (Option ℚ))) : List (List (Option ℚ)) :=
  rows.filter fun r => r.any (·.isSome)

/-- Number of non-missing observations of column `i` in the window. -/
def obsCount (rows : List (List (Option ℚ))) (i : ℕ) : ℕ :=
  rows.countP fun r => (r.getD i none).isSome

/-- `sort_values(ascending=False)` comparison on (ticker, return) pairs. -/
def descBySnd (a b : String × ℚ) : Bool := decide (b.2 ≤ a.2)

/-- `recent_prices.iloc[-1] / recent_prices.iloc[0] - 1` followed by
`.dropna()`: the per-ticker trailing return, defined only for tickers present
in the first and in the last retained row. -/
def sixMonthReturns (tickers : List String) (recent : List (List (Option ℚ))) :
    List (String × ℚ) :=
  (List.range tickers.length).filterMap fun i =>
    match (recent.headD []).getD i none, (recent.getLastD []).getD i none with
    | some fp, some lp => some (tickers.getD i "", lp / fp - 1)
    | _, _ => none

/-- Shallow embedding of the screening stage of `optimize_endpoint`:
drop all-missing rows, require at least 2 rows, rank trailing returns
descending, take the top `num_stocks`, and require at least 2 chosen
tickers. -/
def screenUniverse (tickers : List String) (rows : List (List (Option ℚ)))
    (num_stocks : ℕ) : Except String (List String) :=
  let recent := dropAllNaRows rows
  if recent.length < 2 then Except.error "Not enough 6-month data to rank stocks."
  else
    let ranked := (sixMonthReturns tickers recent).mergeSort descBySnd
    let chosen := (ranked.take num_stocks).map Prod.fst
    if chosen.length < 2 then Except.error "Fewer than 2 valid stocks after ranking."
    else Except.ok chosen

theorem descBySnd_trans : ∀ a b c, descBySnd a b = true → descBySnd b c = true →
    descBySnd a c = true := by
  intro a b c hab hbc
  simp only [descBySnd, decide_eq_true_eq] at *
  exact le_trans hbc hab

theorem descBySnd_total : ∀ a b, (descBySnd a b || descBySnd b a) = true := by
  intro a b
  simp only [descBySnd, Bool.or_eq_true, decide_eq_true_eq]
  exact le_total b.2 a.2

theorem countP_ge_two_of_head_getLast {α : Type} (p : α → Bool) (d : α) :
    ∀ (l : List α), 2 ≤ l.length → p (l.headD d) = true →
      p (l.getLastD d) = true → 2 ≤ l.countP p := by
  intro l hl hh ht
  match l with
  | [] => simp at hl
  | [a] => simp at hl
  | a :: b :: rest =>
      have hne : (b :: rest) ≠ [] := List.cons_ne_nil _ _
      have hlast : (a :: b :: rest).getLastD d = (b :: rest).getLast hne := by
        rw [List.getLastD_eq_getLast?,
          List.getLast?_eq_getLast (a :: b :: rest) (List.cons_ne_nil _ _)]
        simp [List.getLast_cons hne]
      have hmem : (b :: rest).getLast hne ∈ b :: rest := List.getLast_mem hne
      have hcount1 : 0 < (b :: rest).countP p := by
        refine List.countP_pos_iff.2 ⟨(b :: rest).getLast hne, hmem, ?_⟩
        rw [← hlast]
        exact ht
      have hha : p a = true := hh
      rw [List.countP_cons_of_pos p _ hha]
      omega

theorem obsCount_le_of_filter (rows : List (List (Option ℚ))) (i : ℕ) :
    (dropAllNaRows rows).countP (fun r => (r.getD i none).isSome) ≤ obsCount rows i :=
  (List.filter_sublist rows).countP_le _

/-- C6: each ranked trailing return is `last/first − 1` of a ticker present in
both the first and the last retained window row — such a ticker has at least 2
non-missing observations in the window and all other tickers are dropped from
the ranking; the ranking is descending by return; when at least two rows of
data exist, the screening succeeds with the top `num_stocks` tickers exactly
when at least 2 tickers remain after ranking and selection, and otherwise
fails with the `Fewer than 2 valid stocks after ranking.` error. -/
theorem screenUniverse_spec (tickers : List String) (rows : List (List (Option ℚ)))
    (num_stocks : ℕ) (hrec : 2 ≤ (dropAllNaRows rows).length) :
    (∀ p ∈ sixMonthReturns tickers (dropAllNaRows rows),
      ∃ i, i < tickers.length ∧ ∃ fp lp : ℚ,
        ((dropAllNaRows rows).headD []).getD i none = some fp ∧
        ((dropAllNaRows rows).getLastD []).getD i none = some lp ∧
        p = (tickers.getD i "", lp / fp - 1) ∧
        2 ≤ obsCount rows i) ∧
    ((sixMonthReturns tickers (dropAllNaRows rows)).mergeSort descBySnd).Pairwise
      (fun a b => b.2 ≤ a.2) ∧
    (2 ≤ (((sixMonthReturns tickers (dropAllNaRows rows)).mergeSort descBySnd).take
        num_stocks).length →
      screenUniverse tickers rows num_stocks
        = Except.ok ((((sixMonthReturns tickers (dropAllNaRows rows)).mergeSort
            descBySnd).take num_stocks).map Prod.fst)) ∧
    (screenUniverse tickers rows num_stocks
        = Except.error "Fewer than 2 valid stocks after ranking."
      ↔ (((sixMonthReturns tickers (dropAllNaRows rows)).mergeSort descBySnd).take
          num_stocks).length < 2) := by
  have hnotlt : ¬ (dropAllNaRows rows).length < 2 := not_lt.2 hrec
  have hunfold : screenUniverse tickers rows num_stocks
      = if ((((sixMonthReturns tickers (dropAllNaRows rows)).mergeSort descBySnd).take
            num_stocks).map Prod.fst).length < 2 then
          Except.error "Fewer than 2 valid stocks after ranking."
        else Except.ok ((((sixMonthReturns tickers (dropAllNaRows rows)).mergeSort
            descBySnd).take num_stocks).map Prod.fst) := by
    rw [screenUniverse]
    simp only [if_neg hnotlt]
  refine ⟨?_, ?_, ?_, ?_⟩
  · intro p hp
    obtain ⟨i, hi, hfi⟩ := List.mem_filterMap.1 hp
    have hiR : i < tickers.length := List.mem_range.1 hi
    cases hf : ((dropAllNaRows rows).headD []).getD i none with
    | none => rw [hf] at hfi; simp at hfi
    | some fp =>
        cases hl : ((dropAllNaRows rows).getLastD []).getD i none with
        | none => rw [hf, hl] at hfi; simp at hfi
        | some lp =>
            rw [hf, hl] at hfi
            simp only [Option.some.injEq] at hfi
            refine ⟨i, hiR, fp, lp, hf, hl, hfi.symm, ?_⟩
            have h2 : 2 ≤ (dropAllNaRows rows).countP
                (fun r => (r.getD i none).isSome) := by
              refine countP_ge_two_of_head_getLast _ [] _ hrec ?_ ?_
              · rw [hf]; rfl
              · rw [hl]; rfl
            exact le_trans h2 (obsCount_le_of_filter rows i)
  · have hs := List.sorted_mergeSort descBySnd_trans descBySnd_total
      (sixMonthReturns tickers (dropAllNaRows rows))
    exact hs.imp fun h => by simpa [descBySnd, decide_eq_true_eq] using h
  · intro hc
    rw [hunfold, if_neg (by rw [List.length_map]; omega)]
  · rw [hunfold]
    by_cases hc : (((sixMonthReturns tickers (dropAllNaRows rows)).mergeSort
        descBySnd).take num_stocks).length < 2
    · rw [if_pos (by rw [List.length_map]; exact hc)]
      exact iff_of_true rfl hc
    · rw [if_neg (by rw [List.length_map]; exact hc)]
      exact iff_of_false (by simp) hc

/-- Witness for C6 on a concrete fully observed 2×2 price window. -/
theorem screenUniverse_spec_witness :
    2 ≤ (dropAllNaRows [[some (1 : ℚ), some 1], [some 1, some 1]]).length ∧
    ((sixMonthReturns ["A", "B"]
        (dropAllNaRows [[some (1 : ℚ), some 1], [some 1, some 1]])).mergeSort
          descBySnd).Pairwise (fun a b => b.2 ≤ a.2) :=
  ⟨by decide,
   (screenUniverse_spec ["A", "B"] [[some (1 : ℚ), some 1], [some 1, some 1]] 2
      (by decide)).2.1⟩

/-- A calendar date, compared lexicographically (as pandas timestamps are). -/
structure Date where
  year : Int
  month : Int
  day : Int
deriving DecidableEq, Repr

/-- Date comparison `a ≤ b`. -/
def dateLe (a b : Date) : Bool :=
  decide (a.year < b.year ∨ (a.year = b.year ∧
    (a.month < b.month ∨ (a.month = b.month ∧ a.day ≤ b.day))))

/-- The five fixed comparison horizons of `optimize_endpoint`. -/
inductive Horizon where
  | m1 | m3 | m6 | ytd | y1
deriving DecidableEq, Repr

/-- Modelled from the spec: the per-horizon window start "relative to today".
The month/year arithmetic of `pd.DateOffset` is external library code and is
abstracted as `minusMonths` / `minusYears`; the year-to-date start is
concretely January 1 of the current year, exactly as in the source
(`datetime.date(today.year, 1, 1)`). -/
def windowStart (today : Date) (minusMonths : Date → ℕ → Date)
    (minusYears : Date → ℕ → Date) : Horizon → Date
  | .m1 => minusMonths today 1
  | .m3 => minusMonths today 3
  | .m6 => minusMonths today 6
  | .ytd => ⟨today.year, 1, 1⟩
  | .y1 => minusYears today 1

/-- `get_period` of `optimize_endpoint`: restrict an aligned cumulative-index
series to dates on/after `start`; fewer than 2 remaining observations yield
none (not an error), otherwise `last/first − 1`. -/
def get_period (start : Date) (series : List (Date × ℚ)) : Option ℚ :=
  let sub := series.filter fun p => dateLe start p.1
  if sub.length < 2 then none
  else some ((sub.map Prod.snd).getLastD 0 / (sub.map Prod.snd).headD 0 - 1)

/-- One horizon entry of `benchmark_returns`: the portfolio and benchmark
windowed returns, each possibly none. -/
def horizonResult (today : Date) (minusMonths minusYears : Date → ℕ → Date)
    (h : Horizon) (portfolio nifty : List (Date × ℚ)) : Option ℚ × Option ℚ :=
  (get_period (windowStart today minusMonths minusYears h) portfolio,
   get_period (windowStart today minusMonths minusYears h) nifty)

/-- C8: for every horizon, both series of the horizon record are obtained by
restricting the aligned series to dates on/after the horizon's window start;
a restriction with fewer than 2 observations yields none — never an error —
and one with at least 2 observations yields `last/first − 1`; the YTD window
start is January 1 of the current year. -/
theorem horizonResult_spec (today : Date) (minusMonths minusYears : Date → ℕ → Date)
    (h : Horizon) (portfolio nifty : List (Date × ℚ)) :
    horizonResult today minusMonths minusYears h portfolio nifty
      = (get_period (windowStart today minusMonths minusYears h) portfolio,
         get_period (windowStart today minusMonths minusYears h) nifty) ∧
    (∀ series : List (Date × ℚ),
      (get_period (windowStart today minusMonths minusYears h) series = none
        ↔ (series.filter fun p =>
            dateLe (windowStart today minusMonths minusYears h) p.1).length < 2)) ∧
    (∀ series : List (Date × ℚ),
      2 ≤ (series.filter fun p =>
          dateLe (windowStart today minusMonths minusYears h) p.1).length →
        get_period (windowStart today minusMonths minusYears h) series
          = some (((series.filter fun p =>
                dateLe (windowStart today minusMonths minusYears h) p.1).map
                  Prod.snd).getLastD 0
              / ((series.filter fun p =>
                dateLe (windowStart today minusMonths minusYears h) p.1).map
                  Prod.snd).headD 0 - 1)) ∧
    windowStart today minusMonths minusYears Horizon.ytd = ⟨today.year, 1, 1⟩ := by
  have hval : ∀ series : List (Date × ℚ),
      get_period (windowStart today minusMonths minusYears h) series
        = if (series.filter fun p =>
              dateLe (windowStart today minusMonths minusYears h) p.1).length < 2 then
            none
          else some (((series.filter fun p =>
                dateLe (windowStart today minusMonths minusYears h) p.1).map
                  Prod.snd).getLastD 0
              / ((series.filter fun p =>
                dateLe (windowStart today minusMonths minusYears h) p.1).map
                  Prod.snd).headD 0 - 1) := fun _ => rfl
  refine ⟨rfl, ?_, ?_, rfl⟩
  · intro series
    rw [hval series]
    by_cases hc : (series.filter fun p =>
        dateLe (windowStart today minusMonths minusYears h) p.1).length < 2
    · rw [if_pos hc]
      exact iff_of_true rfl hc
    · rw [if_neg hc]
      exact iff_of_false (by simp) hc
  · intro series hc
    rw [hval series, if_neg (not_lt.2 hc)]

/-- Witness for C8 at a concrete horizon with trivial offset functions. -/
theorem horizonResult_spec_witness :
    windowStart ⟨2024, 6, 7⟩ (fun d _ => d) (fun d _ => d) Horizon.ytd
      = ⟨2024, 1, 1⟩ :=
  (horizonResult_spec ⟨2024, 6, 7⟩ (fun d _ => d) (fun d _ => d) Horizon.ytd
    [] []).2.2.2

/-- One row of the optimizer universe frame (`nifty_100_full.csv`). -/
structure UniverseRow where
  ticker : String
  sector : String
  assetClass : String
deriving DecidableEq, Repr

/-- The sector / asset-class filter stage of `optimize_endpoint`: a non-empty
`sectors` list restricts by sector, a non-empty `asset_classes` list restricts
by asset class (empty lists are falsy in Python and skip their filter). -/
def applyFilters (df : List UniverseRow) (sectors asset_classes : List String) :
    List UniverseRow :=
  let f1 := if sectors.isEmpty then df else df.filter fun r => sectors.contains r.sector
  if asset_classes.isEmpty then f1 else f1.filter fun r => asset_classes.contains r.assetClass

/-- `tickers = filtered["Ticker"].tolist(); if not tickers: tickers = all_tickers`. -/
def selectUniverse (df : List UniverseRow) (sectors asset_classes : List String) :
    List String :=
  let tickers := (applyFilters df sectors asset_classes).map (·.ticker)
  if tickers.isEmpty then df.map (·.ticker) else tickers

/-- C10: when the sector and asset-class filters eliminate every ticker, the
pipeline silently falls back to the full unfiltered universe — no rejection is
produced; when at least one ticker matches, only the filtered tickers are
used. -/
theorem selectUniverse_fallback (df : List UniverseRow)
    (sectors asset_classes : List String) :
    (applyFilters df sectors asset_classes = [] →
      selectUniverse df sectors asset_classes = df.map (·.ticker)) ∧
    (applyFilters df sectors asset_classes ≠ [] →
      selectUniverse df sectors asset_classes
        = (applyFilters df sectors asset_classes).map (·.ticker)) := by
  constructor
  · intro hemp
    rw [selectUniverse]
    simp [hemp]
  · intro hne
    rw [selectUniverse]
    have : ((applyFilters df sectors asset_classes).map (·.ticker)).isEmpty = false := by
      cases hf : applyFilters df sectors asset_classes with
      | nil => exact absurd hf hne
      | cons a rest => simp [hf]
    simp [this]

/-- Witness for C10: a one-row universe whose sector filter matches nothing
falls back to the full ticker list. -/
theorem selectUniverse_fallback_witness :
    applyFilters [⟨"T1", "Energy", "Equity"⟩] ["Tech"] [] = [] ∧
    selectUniverse [⟨"T1", "Energy", "Equity"⟩] ["Tech"] []
      = ([⟨"T1", "Energy", "Equity"⟩] : List UniverseRow).map (·.ticker) :=
  ⟨by simp [applyFilters],
   (selectUniverse_fallback [⟨"T1", "Energy", "Equity"⟩] ["Tech"] []).1
     (by simp [applyFilters])⟩

end PortfolioApp
